import Mathlib

/-!
Shallow embedding of the streaming voice-conversation orchestrator
(`src/main.py`) and the Murf synthesis WebSocket client
(`src/services/murf_ws.py`), with theorems settling the frozen claims
about the per-session turn lifecycle, history capping, cancellation,
context clearing, fallback synthesis, session deletion, audio chunk
accounting, and the final-event waiter of the synthesis bridge.

Conventions: asynchronous side effects (WebSocket sends, bridge sends,
history appends, task spawns) are modelled as ordered action traces;
session state is threaded explicitly.  Wall-clock quantities
(elapsed_seconds, timeouts) are abstracted away; a bounded wait is
modelled by the finite list of frames processed during its window.
-/

namespace MurfAi

/-- Translation of Python's `str.strip()` (no arguments): drop leading
and trailing whitespace characters.  Used because `websocket_endpoint`
calls `payload.get("transcript", "").strip()`. -/
def pythonStrip (s : String) : String :=
  ⟨((s.data.dropWhile Char.isWhitespace).reverse.dropWhile Char.isWhitespace).reverse⟩

/-- Entry of a session's conversation history: a role/content pair,
mirroring the `{"role": ..., "content": ...}` dicts of `Session.history`
in `src/main.py`. -/
structure HistoryEntry where
  role : String
  content : String
  deriving DecidableEq, Repr

/-- Embedding of `_append_history_with_trim` (`src/main.py:86-91`):
append the entry, then if `MAX_HISTORY > 0` and the list got longer than
`MAX_HISTORY`, keep only the last `MAX_HISTORY` entries
(`history[-MAX_HISTORY:]`).  `maxHistory` is an `Int` because
`MAX_CHAT_HISTORY` is read from the environment via `int(...)`. -/
def appendHistoryWithTrim (maxHistory : Int) (history : List HistoryEntry)
    (role content : String) : List HistoryEntry :=
  let h := history ++ [⟨role, content⟩]
  if 0 < maxHistory ∧ maxHistory < (h.length : Int) then
    h.drop (h.length - maxHistory.toNat)
  else
    h

/-- Atomic effects of the `turn_end` branch of `websocket_endpoint`
(`src/main.py:248-257`), in program order.  `awaitCancelAck` is the
action of awaiting the cancelled task's acknowledgment; the source never
performs it, but the claims quantify over it. -/
inductive TurnAction where
  | appendUser (transcript : String)
  | cancelPrevRequest
  | awaitCancelAck
  | spawnLlmTask (transcript : String)
  deriving DecidableEq, Repr

/-- Embedding of the `turn_end` branch (`src/main.py:248-257`):
`transcript = payload.get("transcript", "").strip()`; if non-empty,
append the user entry to history, then cancel a still-running previous
task (fire and forget: `task.cancel()` with no await), then spawn the
new LLM task. -/
def handleTurnEnd (transcript : String) (prevTaskRunning : Bool) :
    List TurnAction :=
  let t := pythonStrip transcript
  if t.isEmpty then
    []
  else
    [TurnAction.appendUser t]
      ++ (if prevTaskRunning then [TurnAction.cancelPrevRequest] else [])
      ++ [TurnAction.spawnLlmTask t]

/-- Pieces of per-session state that `_stream_llm_and_emit` reads and
writes (`src/main.py:58-74`): the conversation history, the last Murf
context id registered for interruption (`last_murf_context_id`), and
whether `session.murf_client` is a live client (not `None`). -/
structure SessionState where
  history : List HistoryEntry
  lastMurfContextId : Option String
  murfClient : Bool
  deriving DecidableEq, Repr

/-- Outcome of iterating `llm.stream_chat` inside
`_stream_llm_and_emit`: the stream yields its tokens and is exhausted
normally, or the task is cancelled at an await point after having
processed a prefix of tokens, or the stream raises after a prefix. -/
inductive StreamOutcome where
  | completes (tokens : List String)
  | cancelledAfter (tokens : List String)
  | fails (tokens : List String)
  deriving DecidableEq, Repr

/-- Observable actions of `_stream_llm_and_emit` (`src/main.py:322-444`)
towards the client WebSocket, the Murf bridge and the fallback TTS
service, in program order:
`murfClear ctx` = `murf_client.send_text(ctx, "", clear=True)`;
`llmToken` = `ws.send_text({"type": "llm_token", ...})`;
`murfText ctx tok` = `murf_client.send_text(ctx, tok)`;
`llmComplete` = `ws.send_text({"type": "llm_complete", ...})`;
`murfEnd ctx` = `murf_client.send_text(ctx, "", end=True)`;
`fallbackTts text` = `tts.synthesize(text)` (the fallback call);
`errorEvent` = `ws.send_text({"type": "error", ...})`. -/
inductive EmitAction where
  | murfClear (ctx : String)
  | llmToken (tok : String)
  | murfText (ctx tok : String)
  | llmComplete (text : String)
  | murfEnd (ctx : String)
  | fallbackTts (text : String)
  | errorEvent (msg : String)
  deriving DecidableEq, Repr

/-- Signals whether the per-turn task body ran to completion, propagated
`asyncio.CancelledError` (the bare `raise` at `src/main.py:436-438`), or
swallowed an exception at the task boundary after emitting an error
event (`src/main.py:439-444`). -/
inductive TaskResult where
  | completed
  | cancelledPropagated
  | errorHandled
  deriving DecidableEq, Repr

/-- Per-token actions of the `async for` loop (`src/main.py:376-393`):
emit the token to the client, then forward it to the Murf bridge under
the current turn's context id when a client exists. -/
def tokenActions (murfClient : Bool) (ctx : String) (tokens : List String) :
    List EmitAction :=
  tokens.flatMap fun tok =>
    EmitAction.llmToken tok ::
      (if murfClient then [EmitAction.murfText ctx tok] else [])

/-- The pre-stream clear (`src/main.py:366-371`): when a Murf client
exists and `last_murf_context_id` is truthy (not `None`, not the empty
string), send a clear for that previous context. -/
def clearActions (s : SessionState) : List EmitAction :=
  match s.lastMurfContextId with
  | none => []
  | some prev =>
      if s.murfClient && prev != "" then [EmitAction.murfClear prev] else []

/-- Embedding of `_stream_llm_and_emit` (`src/main.py:322-444`) for one
turn.  `turnCtx` is the freshly generated `turn_context_id`;
`chunkCtxsDuringTurn` lists the context ids of the audio chunks
delivered to `_on_audio_chunk` between the per-turn reset of
`murf_streaming_for_turn` (`src/main.py:374`) and the fallback check
(`src/main.py:417`) — the flag is set by any chunk regardless of its
context id (`src/main.py:340`).  Returns the emitted action trace, the
updated session state, and how the task ended.  On normal completion
the assembled text (`"".join(assembled)`) is appended to history, the
completion event and the Murf end signal are sent,
`last_murf_context_id` is updated to the new context
(`src/main.py:413-414`), and the fallback TTS call is made only when no
streaming chunk was observed.  On cancellation the `except
asyncio.CancelledError: raise` branch re-raises with no further
effects; on a stream failure the generic handler emits one error
event. -/
def streamLlmAndEmit (maxHistory : Int) (s : SessionState) (turnCtx : String)
    (outcome : StreamOutcome) (chunkCtxsDuringTurn : List String) :
    List EmitAction × SessionState × TaskResult :=
  let pre := clearActions s
  match outcome with
  | StreamOutcome.cancelledAfter toks =>
      (pre ++ tokenActions s.murfClient turnCtx toks, s,
       TaskResult.cancelledPropagated)
  | StreamOutcome.fails toks =>
      (pre ++ tokenActions s.murfClient turnCtx toks
         ++ [EmitAction.errorEvent "llm_stream_failed"], s,
       TaskResult.errorHandled)
  | StreamOutcome.completes toks =>
      let finalText := String.join toks
      let murfStreamingForTurn := !chunkCtxsDuringTurn.isEmpty
      (pre ++ tokenActions s.murfClient turnCtx toks
         ++ [EmitAction.llmComplete finalText]
         ++ (if s.murfClient then [EmitAction.murfEnd turnCtx] else [])
         ++ (if murfStreamingForTurn then []
             else [EmitAction.fallbackTts finalText]),
       { history := appendHistoryWithTrim maxHistory s.history "assistant" finalText,
         lastMurfContextId := some turnCtx,
         murfClient := s.murfClient },
       TaskResult.completed)

/-- Trace of two consecutive turns of the same session: the second turn
runs on the session state left behind by the first. -/
def twoTurnTrace (maxHistory : Int) (s : SessionState) (ctxA ctxB : String)
    (o1 o2 : StreamOutcome) (ch1 ch2 : List String) : List EmitAction :=
  let r1 := streamLlmAndEmit maxHistory s ctxA o1 ch1
  let r2 := streamLlmAndEmit maxHistory r1.2.1 ctxB o2 ch2
  r1.1 ++ r2.1

/-- Boolean recogniser for `llm_complete` events. -/
def isLlmComplete : EmitAction → Bool
  | EmitAction.llmComplete _ => true
  | _ => false

/-- Boolean recogniser for fallback `tts.synthesize` calls. -/
def isFallbackTts : EmitAction → Bool
  | EmitAction.fallbackTts _ => true
  | _ => false

/-- Boolean recogniser for client error events. -/
def isErrorEvent : EmitAction → Bool
  | EmitAction.errorEvent _ => true
  | _ => false

/-- Resources a session may own at deletion time (`src/main.py:58-74`):
whether a Murf synthesis client is attached.  The transcription bridge
lives in the browser in this iteration, and the turn buffer is the
`audio_file_path`/counters group; neither is touched by deletion
either, so one owned-resource flag suffices for the claims. -/
structure SessionResources where
  hasMurfClient : Bool
  deriving DecidableEq, Repr

/-- Teardown-relevant actions a session-deletion operation could
perform.  `delete_session` (`src/main.py:175-181`) performs only
`removeFromRegistry` (`SESSIONS.pop(session_id, None)`); the other
constructors are what the claim asserts and are never emitted. -/
inductive DeleteAction where
  | removeFromRegistry (sid : String)
  | closeMurfClient (sid : String)
  | stopTranscription (sid : String)
  | finalizeTurnBuffer (sid : String)
  deriving DecidableEq, Repr

/-- Embedding of `delete_session` (`src/main.py:175-181`): pop the id
from the process-wide `SESSIONS` map and return; no owned resource is
closed, stopped or finalized. -/
def deleteSession (registry : List (String × SessionResources)) (sid : String) :
    List (String × SessionResources) × List DeleteAction :=
  (registry.filter (fun p => p.1 != sid), [DeleteAction.removeFromRegistry sid])

/-- Audio-accounting state of the binary branch of `websocket_endpoint`
(`src/main.py:265-294`): whether `audio_file_path` is set, and the
`audio_chunks` / `audio_bytes` counters.  The wall-clock
`audio_started_at` / `duration` fields are abstracted away. -/
structure AudioStreamState where
  fileOpen : Bool
  audioChunks : Nat
  audioBytes : Nat
  deriving DecidableEq, Repr

/-- Events the binary branch can emit to the client.
`emptyChunkError` is the rejection the claim asserts for zero-length
chunks; the source never emits it. -/
inductive AudioEvent where
  | streamingProgress (chunks bytes : Nat)
  | emptyChunkError
  deriving DecidableEq, Repr

/-- Embedding of the binary-frame branch (`src/main.py:265-294`): in
streaming mode, lazily open the recording file, append the chunk,
increment `audio_chunks` by one and `audio_bytes` by the chunk length,
and emit one `streaming_progress` event with the updated counters.
There is no check on the chunk length.  Outside streaming mode the
chunk is ignored. -/
def handleBinaryChunk (streamingMode : Bool) (st : AudioStreamState)
    (chunkLen : Nat) : AudioStreamState × List AudioEvent :=
  if streamingMode then
    let st1 : AudioStreamState :=
      { fileOpen := true,
        audioChunks := st.audioChunks + 1,
        audioBytes := st.audioBytes + chunkLen }
    (st1, [AudioEvent.streamingProgress st1.audioChunks st1.audioBytes])
  else
    (st, [])

/-- State of `MurfWsClient._final_events` (`src/services/murf_ws.py:55`):
an insertion-ordered association from context id to whether that
context's `asyncio.Event` has been set.  An absent key means
`wait_for_final` has never been called for that context. -/
abbrev FinalEvents := List (String × Bool)

/-- Embedding of the receiver loop's final-frame handling
(`src/services/murf_ws.py:118-121`): `ev = self._final_events.get(ctx);
if ev: ev.set()` — the event is set only when a waiter already
registered it; a final frame for an unknown context changes nothing. -/
def processFinalFrame (evs : FinalEvents) (ctx : String) : FinalEvents :=
  evs.map fun p => if p.1 = ctx then (p.1, true) else p

/-- Embedding of `wait_for_final` (`src/services/murf_ws.py:147-156`):
look up the context's event, registering a fresh unset `asyncio.Event`
if absent, then wait for it with a timeout.  The bounded wait is
modelled by `framesDuringWait`, the context ids of the final frames the
receiver loop processes before the timeout expires: the wait returns
`true` exactly when the event is set by then, `false` on timeout.
Returns the result together with the updated event table. -/
def waitForFinal (evs : FinalEvents) (ctx : String)
    (framesDuringWait : List String) : Bool × FinalEvents :=
  let evs1 : FinalEvents :=
    if (evs.lookup ctx).isSome then evs else evs ++ [(ctx, false)]
  let evs2 : FinalEvents := framesDuringWait.foldl processFinalFrame evs1
  ((evs2.lookup ctx).getD false, evs2)

/-! Helper lemmas shared by the claim theorems. -/

/-- The trimmed list retains at most `maxHistory` entries whenever the
cap is positive. -/
theorem appendHistoryWithTrim_length_le (maxHistory : Int)
    (history : List HistoryEntry) (role content : String)
    (hpos : 0 < maxHistory) :
    ((appendHistoryWithTrim maxHistory history role content).length : Int)
      ≤ maxHistory := by
  unfold appendHistoryWithTrim
  set h := history ++ [(⟨role, content⟩ : HistoryEntry)] with hh
  by_cases hc : 0 < maxHistory ∧ maxHistory < (h.length : Int)
  · rw [if_pos hc]
    rw [List.length_drop]
    have h1 : maxHistory.toNat ≤ h.length := by omega
    have h2 : h.length - (h.length - maxHistory.toNat) = maxHistory.toNat := by
      omega
    rw [h2]
    omega
  · rw [if_neg hc]
    push_neg at hc
    exact hc hpos

/-- The retained history is always a suffix of the old history with the
new entry appended: the evicted entries are the oldest ones and
insertion order is preserved. -/
theorem appendHistoryWithTrim_suffix (maxHistory : Int)
    (history : List HistoryEntry) (role content : String) :
    ∃ pre, history ++ [(⟨role, content⟩ : HistoryEntry)]
      = pre ++ appendHistoryWithTrim maxHistory history role content := by
  unfold appendHistoryWithTrim
  set h := history ++ [(⟨role, content⟩ : HistoryEntry)] with hh
  by_cases hc : 0 < maxHistory ∧ maxHistory < (h.length : Int)
  · rw [if_pos hc]
    exact ⟨h.take (h.length - maxHistory.toNat),
      (List.take_append_drop _ h).symm⟩
  · rw [if_neg hc]
    exact ⟨[], rfl⟩

/-- Every action of the pre-stream clear is a `murfClear`. -/
theorem mem_clearActions {a : EmitAction} {s : SessionState}
    (h : a ∈ clearActions s) : ∃ c, a = EmitAction.murfClear c := by
  obtain ⟨hist, ctx, mc⟩ := s
  cases ctx with
  | none => simp [clearActions] at h
  | some prev =>
      simp only [clearActions] at h
      split at h
      · simp at h
        exact ⟨prev, h⟩
      · simp at h

/-- Every action of the token loop is an `llmToken` or a `murfText`
for the current context. -/
theorem mem_tokenActions {a : EmitAction} {b : Bool} {ctx : String}
    {toks : List String} (h : a ∈ tokenActions b ctx toks) :
    (∃ t, a = EmitAction.llmToken t) ∨ (∃ t, a = EmitAction.murfText ctx t) := by
  induction toks with
  | nil => simp [tokenActions] at h
  | cons t ts ih =>
      simp only [tokenActions, List.flatMap_cons] at h
      rcases List.mem_append.mp h with h1 | h2
      · rcases List.mem_cons.mp h1 with h3 | h4
        · exact Or.inl ⟨t, h3⟩
        · cases b with
          | true =>
              simp at h4
              exact Or.inr ⟨t, h4⟩
          | false => simp at h4
      · exact ih h2

/-- The clear section contains no `llm_complete`, no fallback call and
no error event. -/
theorem countP_clearActions (s : SessionState) :
    (clearActions s).countP isLlmComplete = 0
      ∧ (clearActions s).countP isFallbackTts = 0
      ∧ (clearActions s).countP isErrorEvent = 0 := by
  refine ⟨?_, ?_, ?_⟩ <;>
    (rw [List.countP_eq_zero]
     intro a ha
     obtain ⟨c, rfl⟩ := mem_clearActions ha
     simp [isLlmComplete, isFallbackTts, isErrorEvent])

/-- The token loop contains no `llm_complete`, no fallback call and no
error event. -/
theorem countP_tokenActions (b : Bool) (ctx : String) (toks : List String) :
    (tokenActions b ctx toks).countP isLlmComplete = 0
      ∧ (tokenActions b ctx toks).countP isFallbackTts = 0
      ∧ (tokenActions b ctx toks).countP isErrorEvent = 0 := by
  refine ⟨?_, ?_, ?_⟩ <;>
    (rw [List.countP_eq_zero]
     intro a ha
     rcases mem_tokenActions ha with ⟨t, rfl⟩ | ⟨t, rfl⟩ <;>
       simp [isLlmComplete, isFallbackTts, isErrorEvent])

/-! Claim theorems. -/

/-- C1, counterexample: at the concrete input (transcript `"hi"`, a
previous task still running) the `turn_end` handler never awaits a
cancellation acknowledgment, and the history mutation (the user append)
is its very first action, before the cancellation is even requested —
refuting the claim that cancellation is requested and acknowledged
before the session's history is mutated. -/
theorem claim1_counterexample :
    TurnAction.awaitCancelAck ∉ handleTurnEnd "hi" true
      ∧ (handleTurnEnd "hi" true).get? 0 = some (TurnAction.appendUser "hi")
      ∧ (handleTurnEnd "hi" true).get? 1 = some TurnAction.cancelPrevRequest := by
  decide

/-- C1, amended: when a `turn_end` frame with non-empty stripped
transcript arrives while a previous task is running, the handler first
appends the user entry to history, then requests cancellation of the
previous task without awaiting any acknowledgment, then immediately
spawns the new task — so the superseded task may still be running when
the new one starts. -/
theorem claim1_turn_start_fire_and_forget (transcript : String)
    (h : (pythonStrip transcript).isEmpty = false) :
    handleTurnEnd transcript true =
      [TurnAction.appendUser (pythonStrip transcript),
       TurnAction.cancelPrevRequest,
       TurnAction.spawnLlmTask (pythonStrip transcript)] := by
  simp [handleTurnEnd, h]

/-- C1, witness: the amended theorem applied to the transcript `"hi"`. -/
theorem claim1_witness :
    (pythonStrip "hi").isEmpty = false
      ∧ handleTurnEnd "hi" true =
        [TurnAction.appendUser (pythonStrip "hi"),
         TurnAction.cancelPrevRequest,
         TurnAction.spawnLlmTask (pythonStrip "hi")] :=
  ⟨by decide, claim1_turn_start_fire_and_forget "hi" (by decide)⟩

/-- C4: with a positive cap, after every append the history holds at
most `MAX_HISTORY` entries, and the retained entries are a suffix of
the old history followed by the new entry — the most recently appended
entries, in insertion order, with the oldest evicted first. -/
theorem claim4_history_capped (maxHistory : Int) (history : List HistoryEntry)
    (role content : String) (hpos : 0 < maxHistory) :
    ((appendHistoryWithTrim maxHistory history role content).length : Int)
        ≤ maxHistory
      ∧ ∃ pre, history ++ [(⟨role, content⟩ : HistoryEntry)]
          = pre ++ appendHistoryWithTrim maxHistory history role content :=
  ⟨appendHistoryWithTrim_length_le maxHistory history role content hpos,
   appendHistoryWithTrim_suffix maxHistory history role content⟩

/-- C4, witness: the theorem applied at the default cap 10 and a
one-entry history. -/
theorem claim4_witness :
    (0 : Int) < 10
      ∧ (((appendHistoryWithTrim 10 [⟨"user", "hi"⟩] "assistant" "yo").length : Int)
            ≤ 10
         ∧ ∃ pre, [(⟨"user", "hi"⟩ : HistoryEntry)]
              ++ [(⟨"assistant", "yo"⟩ : HistoryEntry)]
            = pre ++ appendHistoryWithTrim 10 [⟨"user", "hi"⟩] "assistant" "yo") :=
  ⟨by decide, claim4_history_capped 10 [⟨"user", "hi"⟩] "assistant" "yo" (by decide)⟩

/-- C3: a turn cancelled at any await point before the model stream
completes leaves the session state untouched (in particular no
assistant history entry is appended), emits no completion event, and
re-raises the cancellation so it is observable by any awaiting
caller. -/
theorem claim3_cancellation_clean (maxHistory : Int) (s : SessionState)
    (turnCtx : String) (toks chunks : List String) :
    (streamLlmAndEmit maxHistory s turnCtx
        (StreamOutcome.cancelledAfter toks) chunks).2.1 = s
      ∧ (streamLlmAndEmit maxHistory s turnCtx
          (StreamOutcome.cancelledAfter toks) chunks).2.2
        = TaskResult.cancelledPropagated
      ∧ (streamLlmAndEmit maxHistory s turnCtx
          (StreamOutcome.cancelledAfter toks) chunks).1.countP isLlmComplete
        = 0 := by
  refine ⟨rfl, rfl, ?_⟩
  show (clearActions s ++ tokenActions s.murfClient turnCtx toks).countP
      isLlmComplete = 0
  rw [List.countP_append, (countP_clearActions s).1,
    (countP_tokenActions s.murfClient turnCtx toks).1]

/-- C5: a turn whose model stream completes normally emits exactly one
completion event, carrying the concatenation of the tokens in arrival
order, and appends exactly one assistant history entry with that exact
text (the new history is a capped suffix of the old history plus the
single new entry). -/
theorem claim5_single_completion (maxHistory : Int) (s : SessionState)
    (turnCtx : String) (toks chunks : List String) :
    (streamLlmAndEmit maxHistory s turnCtx
        (StreamOutcome.completes toks) chunks).1.countP isLlmComplete = 1
      ∧ EmitAction.llmComplete (String.join toks)
          ∈ (streamLlmAndEmit maxHistory s turnCtx
              (StreamOutcome.completes toks) chunks).1
      ∧ (streamLlmAndEmit maxHistory s turnCtx
          (StreamOutcome.completes toks) chunks).2.1.history
        = appendHistoryWithTrim maxHistory s.history "assistant"
            (String.join toks)
      ∧ ∃ pre, s.history ++ [(⟨"assistant", String.join toks⟩ : HistoryEntry)]
          = pre ++ (streamLlmAndEmit maxHistory s turnCtx
              (StreamOutcome.completes toks) chunks).2.1.history := by
  refine ⟨?_, ?_, rfl, ?_⟩
  · show (clearActions s ++ tokenActions s.murfClient turnCtx toks
        ++ [EmitAction.llmComplete (String.join toks)]
        ++ (if s.murfClient then [EmitAction.murfEnd turnCtx] else [])
        ++ (if !chunks.isEmpty then []
            else [EmitAction.fallbackTts (String.join toks)])).countP
        isLlmComplete = 1
    rw [List.countP_append, List.countP_append, List.countP_append,
      List.countP_append, (countP_clearActions s).1,
      (countP_tokenActions s.murfClient turnCtx toks).1]
    cases s.murfClient <;> cases chunks.isEmpty <;>
      simp [isLlmComplete]
  · show EmitAction.llmComplete (String.join toks)
      ∈ clearActions s ++ tokenActions s.murfClient turnCtx toks
        ++ [EmitAction.llmComplete (String.join toks)]
        ++ (if s.murfClient then [EmitAction.murfEnd turnCtx] else [])
        ++ (if !chunks.isEmpty then []
            else [EmitAction.fallbackTts (String.join toks)])
    simp
  · exact appendHistoryWithTrim_suffix maxHistory s.history "assistant"
      (String.join toks)

/-- C6, counterexample: a single audio chunk tagged with the stale
context `"OLD"` — not the current context `"B"` — arrives during the
turn; the claim then requires the fallback call to be invoked (no
chunk for the current context was observed), yet the code suppresses
it, because `_on_audio_chunk` sets `murf_streaming_for_turn` on any
chunk regardless of its context id. -/
theorem claim6_counterexample :
    "B" ∉ (["OLD"] : List String)
      ∧ (streamLlmAndEmit 10 ⟨[], none, true⟩ "B"
          (StreamOutcome.completes ["y"]) ["OLD"]).1.countP isFallbackTts
        = 0 := by
  decide

/-- C6, amended: on normal stream completion the fallback synthesis
call is invoked exactly once with the full assembled text if and only
if no streaming audio chunk of any context was observed during the
turn; a chunk of a stale context also suppresses the fallback. -/
theorem claim6_fallback_iff_no_chunk (maxHistory : Int) (s : SessionState)
    (turnCtx : String) (toks chunks : List String) :
    (streamLlmAndEmit maxHistory s turnCtx
        (StreamOutcome.completes toks) chunks).1.countP isFallbackTts
      = (if chunks.isEmpty then 1 else 0)
      ∧ (EmitAction.fallbackTts (String.join toks)
            ∈ (streamLlmAndEmit maxHistory s turnCtx
                (StreamOutcome.completes toks) chunks).1
          ↔ chunks.isEmpty = true) := by
  have hcount : (streamLlmAndEmit maxHistory s turnCtx
      (StreamOutcome.completes toks) chunks).1.countP isFallbackTts
      = (if chunks.isEmpty then 1 else 0) := by
    show (clearActions s ++ tokenActions s.murfClient turnCtx toks
        ++ [EmitAction.llmComplete (String.join toks)]
        ++ (if s.murfClient then [EmitAction.murfEnd turnCtx] else [])
        ++ (if !chunks.isEmpty then []
            else [EmitAction.fallbackTts (String.join toks)])).countP
        isFallbackTts = (if chunks.isEmpty then 1 else 0)
    rw [List.countP_append, List.countP_append, List.countP_append,
      List.countP_append, (countP_clearActions s).2.1,
      (countP_tokenActions s.murfClient turnCtx toks).2.1]
    cases s.murfClient <;> cases chunks.isEmpty <;>
      simp [isFallbackTts]
  refine ⟨hcount, ?_, ?_⟩
  · intro hmem
    by_contra hne
    have hzero : (streamLlmAndEmit maxHistory s turnCtx
        (StreamOutcome.completes toks) chunks).1.countP isFallbackTts = 0 := by
      rw [hcount]
      simp [hne]
    have := List.countP_eq_zero.mp hzero _ hmem
    simp [isFallbackTts] at this
  · intro hempty
    show EmitAction.fallbackTts (String.join toks)
      ∈ clearActions s ++ tokenActions s.murfClient turnCtx toks
        ++ [EmitAction.llmComplete (String.join toks)]
        ++ (if s.murfClient then [EmitAction.murfEnd turnCtx] else [])
        ++ (if !chunks.isEmpty then []
            else [EmitAction.fallbackTts (String.join toks)])
    simp [hempty]

/-- C7: a model stream that raises after yielding a prefix of tokens
produces exactly one error event (so the turn does not vanish
silently), leaves the session state untouched, and the task swallows
the exception at its boundary (`errorHandled`) instead of crashing the
connection's receive loop, so the session stays usable for the next
turn. -/
theorem claim7_stream_failure_single_error (maxHistory : Int)
    (s : SessionState) (turnCtx : String) (toks chunks : List String) :
    (streamLlmAndEmit maxHistory s turnCtx
        (StreamOutcome.fails toks) chunks).1.countP isErrorEvent = 1
      ∧ EmitAction.errorEvent "llm_stream_failed"
          ∈ (streamLlmAndEmit maxHistory s turnCtx
              (StreamOutcome.fails toks) chunks).1
      ∧ (streamLlmAndEmit maxHistory s turnCtx
          (StreamOutcome.fails toks) chunks).2.1 = s
      ∧ (streamLlmAndEmit maxHistory s turnCtx
          (StreamOutcome.fails toks) chunks).2.2 = TaskResult.errorHandled := by
  refine ⟨?_, ?_, rfl, rfl⟩
  · show (clearActions s ++ tokenActions s.murfClient turnCtx toks
        ++ [EmitAction.errorEvent "llm_stream_failed"]).countP isErrorEvent = 1
    rw [List.countP_append, List.countP_append, (countP_clearActions s).2.2,
      (countP_tokenActions s.murfClient turnCtx toks).2.2]
    simp [isErrorEvent]
  · show EmitAction.errorEvent "llm_stream_failed"
      ∈ clearActions s ++ tokenActions s.murfClient turnCtx toks
        ++ [EmitAction.errorEvent "llm_stream_failed"]
    simp

/-- C2, counterexample: the first turn (context `"A"`) is cancelled
mid-stream, so `last_murf_context_id` — which is only updated after a
turn completes — never registers `"A"`; the next turn (context `"B"`)
therefore issues no clear for `"A"` at all, yet streams its text to
the bridge: refuting the claim for the cancelled-mid-stream case. -/
theorem claim2_counterexample :
    EmitAction.murfClear "A" ∉ twoTurnTrace 10 ⟨[], none, true⟩ "A" "B"
        (StreamOutcome.cancelledAfter ["x"]) (StreamOutcome.completes ["y"]) [] []
      ∧ EmitAction.murfText "B" "y" ∈ twoTurnTrace 10 ⟨[], none, true⟩ "A" "B"
        (StreamOutcome.cancelledAfter ["x"]) (StreamOutcome.completes ["y"]) [] [] := by
  decide

/-- Helper for C2: a turn started on a session whose registered last
context is `ctxA` (with a live Murf client and a non-empty id) begins
its bridge traffic with the clear of `ctxA`, whatever the new turn's
outcome. -/
theorem streamLlmAndEmit_trace_head (maxHistory : Int) (s1 : SessionState)
    (ctxA : String) (h1 : s1.lastMurfContextId = some ctxA)
    (h2 : s1.murfClient = true) (hA : ctxA ≠ "") (ctxB : String)
    (o2 : StreamOutcome) (ch2 : List String) :
    ∃ rest, (streamLlmAndEmit maxHistory s1 ctxB o2 ch2).1
      = EmitAction.murfClear ctxA :: rest := by
  have hclear : clearActions s1 = [EmitAction.murfClear ctxA] := by
    simp [clearActions, h1, h2, hA]
  cases o2 with
  | completes toks =>
      exact ⟨tokenActions s1.murfClient ctxB toks
          ++ [EmitAction.llmComplete (String.join toks)]
          ++ (if s1.murfClient then [EmitAction.murfEnd ctxB] else [])
          ++ (if !ch2.isEmpty then []
              else [EmitAction.fallbackTts (String.join toks)]), by
        show clearActions s1 ++ tokenActions s1.murfClient ctxB toks
            ++ [EmitAction.llmComplete (String.join toks)]
            ++ (if s1.murfClient then [EmitAction.murfEnd ctxB] else [])
            ++ (if !ch2.isEmpty then []
                else [EmitAction.fallbackTts (String.join toks)]) = _
        rw [hclear]
        simp [List.append_assoc]⟩
  | cancelledAfter toks =>
      exact ⟨tokenActions s1.murfClient ctxB toks, by
        show clearActions s1 ++ tokenActions s1.murfClient ctxB toks = _
        rw [hclear]
        simp⟩
  | fails toks =>
      exact ⟨tokenActions s1.murfClient ctxB toks
          ++ [EmitAction.errorEvent "llm_stream_failed"], by
        show clearActions s1 ++ tokenActions s1.murfClient ctxB toks
            ++ [EmitAction.errorEvent "llm_stream_failed"] = _
        rw [hclear]
        simp [List.append_assoc]⟩

/-- C2, amended: for two consecutive turns whose earlier turn completed
its model stream (thereby registering its context `ctxA` as
`last_murf_context_id`), the clear for `ctxA` is issued before any
text of the new context `ctxB` reaches the bridge — but a turn
cancelled mid-stream never registers its context, so the guarantee is
limited to completed earlier turns. -/
theorem claim2_clear_before_new_context (maxHistory : Int) (s : SessionState)
    (ctxA ctxB : String) (toks1 : List String) (o2 : StreamOutcome)
    (ch1 ch2 : List String) (hA : ctxA ≠ "") (hC : s.murfClient = true) :
    ∀ j tok,
      ((streamLlmAndEmit maxHistory
          (streamLlmAndEmit maxHistory s ctxA
            (StreamOutcome.completes toks1) ch1).2.1
          ctxB o2 ch2).1).get? j = some (EmitAction.murfText ctxB tok) →
      ∃ i, i < j
        ∧ ((streamLlmAndEmit maxHistory
              (streamLlmAndEmit maxHistory s ctxA
                (StreamOutcome.completes toks1) ch1).2.1
              ctxB o2 ch2).1).get? i = some (EmitAction.murfClear ctxA) := by
  intro j tok hj
  obtain ⟨rest, hrest⟩ := streamLlmAndEmit_trace_head maxHistory
    (streamLlmAndEmit maxHistory s ctxA
      (StreamOutcome.completes toks1) ch1).2.1 ctxA rfl hC hA ctxB o2 ch2
  refine ⟨0, ?_, ?_⟩
  · rcases j with _ | n
    · rw [hrest] at hj
      simp at hj
    · omega
  · rw [hrest]
    rfl

/-- C2, witness: the amended theorem applied to a completed first turn
with context `"A"` followed by a turn with context `"B"`; the bridge
text of the new context sits at index 2 of the second turn's trace and
the clear of `"A"` precedes it. -/
theorem claim2_witness :
    ∃ i, i < 2
      ∧ ((streamLlmAndEmit 10
            (streamLlmAndEmit 10 ⟨[], none, true⟩ "A"
              (StreamOutcome.completes ["x"]) []).2.1
            "B" (StreamOutcome.completes ["y"]) []).1).get? i
        = some (EmitAction.murfClear "A") :=
  claim2_clear_before_new_context 10 ⟨[], none, true⟩ "A" "B" ["x"]
    (StreamOutcome.completes ["y"]) [] [] (by decide) rfl 2 "y" (by decide)

/-- Removing a key from an association list by filtering makes its
lookup fail. -/
theorem lookup_filter_ne (reg : List (String × SessionResources))
    (sid : String) :
    (reg.filter (fun p => p.1 != sid)).lookup sid = none := by
  induction reg with
  | nil => rfl
  | cons hd tl ih =>
      obtain ⟨k, v⟩ := hd
      by_cases hk : k = sid
      · simp only [List.filter, hk, bne_self_eq_false]
        exact ih
      · have hb : (k != sid) = true := by simp [hk]
        simp only [List.filter, hb]
        have hsk : ¬sid = k := fun he => hk he.symm
        have hbk : (sid == k) = false := by simp [hsk]
        simp only [List.lookup, hbk]
        exact ih

/-- C8, counterexample: a registry holding the session `"s1"` that owns
a live Murf synthesis client; deleting it performs no bridge close, no
transcription stop and no turn-buffer finalization — refuting the
claim that deletion triggers teardown of the session's owned
resources. -/
theorem claim8_counterexample :
    ([("s1", (⟨true⟩ : SessionResources))].lookup "s1"
        = some (⟨true⟩ : SessionResources))
      ∧ DeleteAction.closeMurfClient "s1"
          ∉ (deleteSession [("s1", ⟨true⟩)] "s1").2
      ∧ DeleteAction.stopTranscription "s1"
          ∉ (deleteSession [("s1", ⟨true⟩)] "s1").2
      ∧ DeleteAction.finalizeTurnBuffer "s1"
          ∉ (deleteSession [("s1", ⟨true⟩)] "s1").2 := by
  decide

/-- C8, amended: the delete-session operation removes the session from
the registry (its lookup fails afterwards) and performs nothing else:
its only action is the registry pop, and no teardown of the session's
synthesis bridge, transcription bridge or turn buffer is triggered
(that cleanup happens only in the WebSocket disconnect handler). -/
theorem claim8_delete_only_pops (reg : List (String × SessionResources))
    (sid : String) :
    (deleteSession reg sid).1.lookup sid = none
      ∧ (deleteSession reg sid).2 = [DeleteAction.removeFromRegistry sid] :=
  ⟨lookup_filter_ne reg sid, rfl⟩

/-- C9, counterexample: with an open buffer holding 3 chunks and 450
bytes, a zero-length chunk in streaming mode is accepted rather than
rejected: the chunk count changes from 3 to 4 and no empty-chunk error
is emitted — refuting the claim that `len(chunk) == 0` fails with
`EmptyChunk` leaving the counts unchanged. -/
theorem claim9_counterexample :
    (handleBinaryChunk true ⟨true, 3, 450⟩ 0).1.audioChunks = 4
      ∧ AudioEvent.emptyChunkError ∉ (handleBinaryChunk true ⟨true, 3, 450⟩ 0).2 := by
  decide

/-- C9, amended: in streaming mode every inbound binary chunk —
including a zero-length one — is accepted: the chunk count increments
by one, the byte count grows by the chunk length (so stays unchanged
for an empty chunk), and exactly one progress event reporting the
updated statistics is emitted; no empty-chunk rejection exists in the
code. -/
theorem claim9_empty_chunk_accepted (st : AudioStreamState) (chunkLen : Nat) :
    (handleBinaryChunk true st chunkLen).1
        = ⟨true, st.audioChunks + 1, st.audioBytes + chunkLen⟩
      ∧ (handleBinaryChunk true st chunkLen).2
        = [AudioEvent.streamingProgress (st.audioChunks + 1)
            (st.audioBytes + chunkLen)]
      ∧ (handleBinaryChunk true st 0).1.audioChunks = st.audioChunks + 1
      ∧ (handleBinaryChunk true st 0).1.audioBytes = st.audioBytes
      ∧ AudioEvent.emptyChunkError ∉ (handleBinaryChunk true st 0).2 := by
  refine ⟨rfl, rfl, rfl, rfl, ?_⟩
  simp [handleBinaryChunk]

/-- A final frame for a context with no registered waiter leaves the
event table unchanged. -/
theorem processFinalFrame_of_lookup_none (evs : FinalEvents) (ctx : String)
    (h : evs.lookup ctx = none) : processFinalFrame evs ctx = evs := by
  induction evs with
  | nil => rfl
  | cons hd tl ih =>
      obtain ⟨k, v⟩ := hd
      by_cases hk : (ctx == k) = true
      · simp [List.lookup, hk] at h
      · have hk' : (ctx == k) = false := by simpa using hk
        have h' : tl.lookup ctx = none := by simpa [List.lookup, hk'] using h
        have hkc : ¬(k = ctx) := by
          intro he
          rw [he] at hk'
          simp at hk'
        simp only [processFinalFrame, List.map_cons, if_neg hkc]
        rw [show (tl.map fun p => if p.1 = ctx then (p.1, true) else p)
            = processFinalFrame tl ctx from rfl, ih h']

/-- Processing a final frame for context `c` turns a registered
waiter's looked-up flag to true exactly when `c` is that waiter's
context. -/
theorem lookup_processFinalFrame (evs : FinalEvents) (ctx c : String)
    (b : Bool) (h : evs.lookup ctx = some b) :
    (processFinalFrame evs c).lookup ctx = some (b || (ctx == c)) := by
  induction evs generalizing b with
  | nil => simp [List.lookup] at h
  | cons hd tl ih =>
      obtain ⟨k, v⟩ := hd
      by_cases hk : (ctx == k) = true
      · have hkc : ctx = k := by simpa using hk
        have hv : v = b := by simpa [List.lookup, hk] using h
        by_cases hc : k = c
        · have hcc : (ctx == c) = true := by simp [hkc, hc]
          simp only [processFinalFrame, List.map_cons, if_pos hc, hcc]
          simp [List.lookup, hk]
        · have hcc : (ctx == c) = false := by
            simp [hkc]
            exact hc
          simp only [processFinalFrame, List.map_cons, if_neg hc, hcc]
          simp [List.lookup, hk, hv]
      · have hk' : (ctx == k) = false := by simpa using hk
        have h' : tl.lookup ctx = some b := by simpa [List.lookup, hk'] using h
        have htail := ih b h'
        by_cases hc : k = c
        · simp only [processFinalFrame, List.map_cons, if_pos hc]
          simpa [List.lookup, hk', processFinalFrame] using htail
        · simp only [processFinalFrame, List.map_cons, if_neg hc]
          simpa [List.lookup, hk', processFinalFrame] using htail

/-- Lookup skips a block of entries none of which carries the key. -/
theorem lookup_append_right (l1 l2 : FinalEvents) (ctx : String)
    (h : l1.lookup ctx = none) : (l1 ++ l2).lookup ctx = l2.lookup ctx := by
  induction l1 with
  | nil => rfl
  | cons hd tl ih =>
      obtain ⟨k, v⟩ := hd
      by_cases hk : (ctx == k) = true
      · simp [List.lookup, hk] at h
      · have hk' : (ctx == k) = false := by simpa using hk
        have h' : tl.lookup ctx = none := by simpa [List.lookup, hk'] using h
        simp only [List.cons_append]
        simp [List.lookup, hk']
        exact ih h'

/-- Running the receiver loop over the frames of a wait window: a
waiter registered with flag `b` ends with the flag raised exactly when
it started raised or some frame of the window targets its context. -/
theorem lookup_foldl_processFinalFrame (frames : List String)
    (evs : FinalEvents) (ctx : String) (b : Bool)
    (h : evs.lookup ctx = some b) :
    (frames.foldl processFinalFrame evs).lookup ctx
      = some (b || frames.contains ctx) := by
  induction frames generalizing evs b with
  | nil => simpa using h
  | cons c cs ih =>
      simp only [List.foldl_cons]
      rw [ih (processFinalFrame evs c) (b || (ctx == c))
        (lookup_processFinalFrame evs ctx c b h)]
      congr 1
      by_cases hcc : ctx = c
      · simp [hcc, List.contains, List.elem_cons, Bool.or_assoc]
      · have hbc : (ctx == c) = false := by simp [hcc]
        simp [hbc, List.contains, List.elem_cons, Bool.or_assoc, hcc]

/-- C10: a final frame processed for a context with no registered
waiter is not recorded: the event table is unchanged, a later
`wait_for_final` for that context (with no further final frames during
its window) runs out its full timeout and returns false even though
the final chunk already arrived, and — starting from an unregistered
context — `wait_for_final` returns true exactly when a final frame for
that context is processed after its registration, during the wait
window. -/
theorem claim10_final_before_wait_lost (evs : FinalEvents) (ctx : String)
    (frames : List String) (h : evs.lookup ctx = none) :
    processFinalFrame evs ctx = evs
      ∧ (waitForFinal (processFinalFrame evs ctx) ctx []).1 = false
      ∧ ((waitForFinal evs ctx frames).1 = true ↔ ctx ∈ frames) := by
  have hid := processFinalFrame_of_lookup_none evs ctx h
  have hbase : (evs ++ [(ctx, false)]).lookup ctx = some false := by
    rw [lookup_append_right evs [(ctx, false)] ctx h]
    simp [List.lookup]
  refine ⟨hid, ?_, ?_⟩
  · rw [hid]
    unfold waitForFinal
    simp only [h, Option.isSome_none, Bool.false_eq_true, if_false,
      List.foldl_nil]
    rw [hbase]
    rfl
  · unfold waitForFinal
    simp only [h, Option.isSome_none, Bool.false_eq_true, if_false]
    rw [lookup_foldl_processFinalFrame frames (evs ++ [(ctx, false)]) ctx
      false hbase]
    simp [List.contains, List.elem_iff]

/-- C10, witness: the theorem applied to the empty event table, context
`"C"`, and a window containing the final frame for `"C"`. -/
theorem claim10_witness :
    ([] : FinalEvents).lookup "C" = none
      ∧ (processFinalFrame [] "C" = []
         ∧ (waitForFinal (processFinalFrame [] "C") "C" []).1 = false
         ∧ ((waitForFinal [] "C" ["C"]).1 = true ↔ "C" ∈ (["C"] : List String))) :=
  ⟨rfl, claim10_final_before_wait_lost [] "C" ["C"] rfl⟩

end MurfAi

